import Mathlib

/-!
Verification of the AURA LLM-driven browser-automation agent
(`services/automation.py`).

The Python source is shallowly embedded: pure helpers become Lean
functions, the browser/LLM environment is abstracted as explicit inputs
(one `StepInput` per control-loop iteration), and Python exceptions are
modelled by `Option`/explicit failure constructors.  Python strings are
modelled by Lean `String` (sequences of unicode scalar values);
`str.lower()` is modelled by a per-character `Char.toLower` map (identical
on ASCII, which covers every fixed keyword in the source).
-/

/-! ## String helpers: Python's `needle in haystack` substring test -/

/-- Boolean list-prefix test (used to model Python substring search). -/
def listPrefixB : List Char → List Char → Bool
  | [], _ => true
  | _ :: _, [] => false
  | a :: as, b :: bs => a == b && listPrefixB as bs

/-- Boolean list-infix test: `needle` occurs contiguously in the haystack.
Models Python's `needle in haystack` for strings. -/
def listInfixB (needle : List Char) : List Char → Bool
  | [] => listPrefixB needle []
  | b :: bs => listPrefixB needle (b :: bs) || listInfixB needle bs

/-- Model of Python `needle in hay`: `strContains hay needle`. -/
def strContains (hay needle : String) : Bool :=
  listInfixB needle.data hay.data

/-- Model of `str.lower()` / JS `toLowerCase()` (ASCII-faithful, and the
fixed keywords it is compared against are all ASCII). -/
def strToLower (s : String) : String := ⟨s.data.map Char.toLower⟩

/-- Model of JS `toUpperCase()` (ASCII-faithful). -/
def strToUpper (s : String) : String := ⟨s.data.map Char.toUpper⟩

/-- Model of JS `substring(0, n)` / `str.take`. -/
def strTake (s : String) (n : Nat) : String := ⟨s.data.take n⟩

/-- Model of JS `trim()` / Python `strip()`: drop whitespace at both ends. -/
def strTrim (s : String) : String :=
  ⟨((s.data.dropWhile Char.isWhitespace).reverse.dropWhile Char.isWhitespace).reverse⟩

theorem listPrefixB_append (xs ys : List Char) : listPrefixB xs (xs ++ ys) = true := by
  induction xs with
  | nil => rfl
  | cons a as ih => simp [listPrefixB, ih]

theorem listInfixB_of_prefixB (xs hay : List Char) (h : listPrefixB xs hay = true) :
    listInfixB xs hay = true := by
  cases hay with
  | nil => simpa [listInfixB] using h
  | cons b bs => simp [listInfixB, h]

theorem listInfixB_append (pre xs suf : List Char) :
    listInfixB xs (pre ++ (xs ++ suf)) = true := by
  induction pre with
  | nil =>
    simpa using listInfixB_of_prefixB xs (xs ++ suf) (listPrefixB_append xs suf)
  | cons p ps ih =>
    simp [listInfixB, ih]

/-! ## Payment-page heuristic (`_is_payment_page`, automation.py lines 460-467) -/

/-- The fixed keyword list from `_is_payment_page`. -/
def PAYMENT_KEYWORDS : List String :=
  ["payment", "checkout", "pay now", "card details", "billing",
   "credit card", "debit card", "upi", "razorpay", "stripe",
   "paytm", "phonepe", "confirm booking", "proceed to pay"]

/-- Model of `_is_payment_page(url, title)`: case-insensitive substring match of any
payment keyword against `url + " " + title`. -/
def _is_payment_page (url title : String) : Bool :=
  let combined := strToLower (url ++ " " ++ title)
  PAYMENT_KEYWORDS.any (fun kw => strContains combined kw)

/-! ## Site Router (`SITE_MAP` and its use in `_automate_with_llm`) -/

structure Site where
  url : String
  name : String
deriving Repr, DecidableEq

/-- The fixed intent → site table (automation.py lines 31-38). -/
def SITE_MAP : List (String × Site) :=
  [("taxi_booking", ⟨"https://m.uber.com/go/pickup", "Uber"⟩),
   ("bus_booking", ⟨"https://www.redbus.in/", "RedBus"⟩),
   ("hotel_booking", ⟨"https://www.booking.com/", "Booking.com"⟩),
   ("flight_booking", ⟨"https://www.google.com/travel/flights", "Google Flights"⟩),
   ("restaurant_booking", ⟨"https://www.zomato.com/", "Zomato"⟩),
   ("tour_booking", ⟨"https://www.google.com/maps", "Google Maps"⟩)]

/-- Model of `SITE_MAP.get(intent, fallback)` from `_automate_with_llm` lines 370-373. -/
def siteFor (intent destination : String) : Site :=
  match SITE_MAP.lookup intent with
  | some s => s
  | none => ⟨"https://www.google.com/search?q=" ++ destination ++ "+booking", "Google"⟩

/-! ## JSON values and a model of Python's `json.loads`

The Decision Engine (`_ask_llm_action`) parses model replies with
`json.loads`.  We embed the stdlib JSON grammar (objects, arrays, strings
with escapes, numbers, `true`/`false`/`null`, and the CPython extensions
`NaN`/`Infinity`/`-Infinity`).  Numbers keep their integer part, fraction
digits and exponent verbatim (the claims only involve integers).  A lone
surrogate in a `\u` escape is mapped to U+FFFD (Lean chars cannot hold
surrogates); CPython's recursion limit is not modelled (the parser is
total by fuel on the input length). -/

inductive JValue where
  | null
  | bool (b : Bool)
  | num (intPart : Int) (frac : List Char) (exp : Option Int)
  | nan
  | infinity (neg : Bool)
  | str (s : String)
  | arr (elems : List JValue)
  | obj (fields : List (String × JValue))
deriving Repr, Inhabited

def lbraceC : Char := Char.ofNat 123

def rbraceC : Char := Char.ofNat 125

/-- JSON whitespace, as in Python's `json` module (` \t\n\r`). -/
def jsonWs (c : Char) : Bool := c == ' ' || c == '\t' || c == '\n' || c == '\r'

def skipWs : List Char → List Char
  | [] => []
  | c :: cs => if jsonWs c then skipWs cs else c :: cs

def hexDigitVal (c : Char) : Option Nat :=
  if '0' ≤ c ∧ c ≤ '9' then some (c.toNat - 48)
  else if 'a' ≤ c ∧ c ≤ 'f' then some (c.toNat - 87)
  else if 'A' ≤ c ∧ c ≤ 'F' then some (c.toNat - 55)
  else none

def parseHex4 : List Char → Option (Nat × List Char)
  | a :: b :: c :: d :: rest => do
    let va ← hexDigitVal a
    let vb ← hexDigitVal b
    let vc ← hexDigitVal c
    let vd ← hexDigitVal d
    pure (va * 4096 + vb * 256 + vc * 16 + vd, rest)
  | _ => none

/-- Turn a code point into a `Char`; lone surrogates become U+FFFD. -/
def ucChar (n : Nat) : Char :=
  if n.isValidChar then Char.ofNat n else Char.ofNat 0xFFFD

/-- Model of `json.decoder.scanstring` (strict mode): scan a double-quoted
string body (opening quote already consumed). -/
def scanStringAux : Nat → List Char → List Char → Option (String × List Char)
  | 0, _, _ => none
  | _ + 1, _, [] => none
  | fuel + 1, acc, c :: cs =>
    if c = '"' then some (⟨acc.reverse⟩, cs)
    else if c = '\\' then
      match cs with
      | [] => none
      | e :: cs2 =>
        if e = '"' then scanStringAux fuel ('"' :: acc) cs2
        else if e = '\\' then scanStringAux fuel ('\\' :: acc) cs2
        else if e = '/' then scanStringAux fuel ('/' :: acc) cs2
        else if e = 'b' then scanStringAux fuel ('\x08' :: acc) cs2
        else if e = 'f' then scanStringAux fuel ('\x0c' :: acc) cs2
        else if e = 'n' then scanStringAux fuel ('\n' :: acc) cs2
        else if e = 'r' then scanStringAux fuel ('\r' :: acc) cs2
        else if e = 't' then scanStringAux fuel ('\t' :: acc) cs2
        else if e = 'u' then
          match parseHex4 cs2 with
          | none => none
          | some (n, cs3) =>
            if 0xD800 ≤ n ∧ n ≤ 0xDBFF then
              match cs3 with
              | '\\' :: 'u' :: cs4 =>
                match parseHex4 cs4 with
                | some (n2, cs5) =>
                  if 0xDC00 ≤ n2 ∧ n2 ≤ 0xDFFF then
                    scanStringAux fuel
                      (ucChar (0x10000 + (n - 0xD800) * 0x400 + (n2 - 0xDC00)) :: acc) cs5
                  else scanStringAux fuel (ucChar n :: acc) cs3
                | none => scanStringAux fuel (ucChar n :: acc) cs3
              | _ => scanStringAux fuel (ucChar n :: acc) cs3
            else scanStringAux fuel (ucChar n :: acc) cs3
        else none
    else if c.toNat < 0x20 then none
    else scanStringAux fuel (c :: acc) cs

def digitsVal (ds : List Char) : Nat :=
  ds.foldl (fun n c => n * 10 + (c.toNat - 48)) 0

/-- Fraction and exponent groups of `json`'s `NUMBER_RE` (both optional;
a failed group leaves its characters unconsumed, as a regex does). -/
def scanNumberTail (neg : Bool) (ip : Nat) (cs : List Char) : JValue × List Char :=
  let (fracDigits, cs2) :=
    match cs with
    | '.' :: rest =>
      let ds := List.takeWhile Char.isDigit rest
      if ds.isEmpty then (([] : List Char), cs)
      else (ds, List.dropWhile Char.isDigit rest)
    | _ => (([] : List Char), cs)
  let (expPart, cs3) :=
    match cs2 with
    | e :: rest =>
      if e = 'e' ∨ e = 'E' then
        let (sgn, rest2) :=
          match rest with
          | '+' :: r => ((1 : Int), r)
          | '-' :: r => ((-1 : Int), r)
          | _ => ((1 : Int), rest)
        let ds := List.takeWhile Char.isDigit rest2
        if ds.isEmpty then ((none : Option Int), cs2)
        else (some (sgn * (digitsVal ds : Int)), List.dropWhile Char.isDigit rest2)
      else ((none : Option Int), cs2)
    | [] => ((none : Option Int), cs2)
  let ipInt : Int := if neg then -(ip : Int) else (ip : Int)
  (.num ipInt fracDigits expPart, cs3)

/-- Model of the scanner's `NUMBER_RE` match:
`-?(0|[1-9][0-9]*)(\.[0-9]+)?([eE][+-]?[0-9]+)?`. -/
def scanNumber (cs : List Char) : Option (JValue × List Char) :=
  let (neg, cs1) :=
    match cs with
    | '-' :: rest => (true, rest)
    | _ => (false, cs)
  match cs1 with
  | [] => none
  | c :: rest =>
    if c = '0' then some (scanNumberTail neg 0 rest)
    else if c.isDigit then
      some (scanNumberTail neg (digitsVal (List.takeWhile Char.isDigit (c :: rest)))
        (List.dropWhile Char.isDigit (c :: rest)))
    else none

/-- Parser mode: a plain value, the member loop of an object (fields
accumulated so far, whether we are before the first member), or the
element loop of an array. -/
inductive PMode where
  | val
  | objBody (fields : List (String × JValue)) (isFirst : Bool)
  | arrBody (elems : List JValue) (isFirst : Bool)

/-- Model of `json.scanner.py_make_scanner`'s `_scan_once` together with
`json.decoder.JSONObject`/`JSONArray` (one structurally recursive function
so that it reduces definitionally; the fuel is generous at the call site).
In `val` mode it parses one JSON value starting exactly at the head of the
list (no leading whitespace); the other two modes continue an object or
array whose opening bracket has been consumed (whitespace skipped). -/
def parseRun : Nat → PMode → List Char → Option (JValue × List Char)
  | 0, _, _ => none
  | fuel + 1, .val, cs =>
    (match cs with
     | [] => none
     | c :: rest =>
       if c = '"' then
         (scanStringAux (rest.length + 1) [] rest).map (fun p => (JValue.str p.1, p.2))
       else if c = lbraceC then parseRun fuel (.objBody [] true) (skipWs rest)
       else if c = '[' then parseRun fuel (.arrBody [] true) (skipWs rest)
       else if c = 'n' then
         match rest with
         | 'u' :: 'l' :: 'l' :: r => some (.null, r)
         | _ => none
       else if c = 't' then
         match rest with
         | 'r' :: 'u' :: 'e' :: r => some (.bool true, r)
         | _ => none
       else if c = 'f' then
         match rest with
         | 'a' :: 'l' :: 's' :: 'e' :: r => some (.bool false, r)
         | _ => none
       else if c = 'N' then
         match rest with
         | 'a' :: 'N' :: r => some (.nan, r)
         | _ => none
       else if c = 'I' then
         match rest with
         | 'n' :: 'f' :: 'i' :: 'n' :: 'i' :: 't' :: 'y' :: r => some (.infinity false, r)
         | _ => none
       else if c = '-' ∧ rest.take 8 = "Infinity".data then
         some (.infinity true, rest.drop 8)
       else scanNumber (c :: rest))
  | fuel + 1, .objBody fields isFirst, cs =>
    (match cs with
     | [] => none
     | c :: rest =>
       if isFirst ∧ c = rbraceC then some (.obj fields, rest)
       else if c = '"' then
         match scanStringAux (rest.length + 1) [] rest with
         | none => none
         | some (key, cs2) =>
           match skipWs cs2 with
           | ':' :: cs3 =>
             match parseRun fuel .val (skipWs cs3) with
             | none => none
             | some (v, cs4) =>
               match skipWs cs4 with
               | c2 :: cs5 =>
                 if c2 = rbraceC then some (.obj (fields ++ [(key, v)]), cs5)
                 else if c2 = ',' then
                   parseRun fuel (.objBody (fields ++ [(key, v)]) false) (skipWs cs5)
                 else none
               | [] => none
           | _ => none
       else none)
  | fuel + 1, .arrBody elems isFirst, cs =>
    (match cs with
     | [] => none
     | c :: rest =>
       if isFirst ∧ c = ']' then some (.arr elems, rest)
       else
         match parseRun fuel .val cs with
         | none => none
         | some (v, cs2) =>
           match skipWs cs2 with
           | c2 :: cs3 =>
             if c2 = ']' then some (.arr (elems ++ [v]), cs3)
             else if c2 = ',' then parseRun fuel (.arrBody (elems ++ [v]) false) (skipWs cs3)
             else none
           | [] => none)

/-- One JSON value at the current position (mode `val`). -/
def parseVal (fuel : Nat) (cs : List Char) : Option (JValue × List Char) :=
  parseRun fuel .val cs

/-- Model of `json.loads`: parse a whole string; trailing non-whitespace
is an error (`None`). -/
def json_loads (s : String) : Option JValue :=
  match parseVal (2 * s.data.length + 4) (skipWs s.data) with
  | some (v, rest) => if (skipWs rest).isEmpty then some v else none
  | none => none

/-- Model of `dict.get(k)` on a parsed JSON object (`None` on a non-dict
or a missing key; with duplicate keys the last value wins, as in Python). -/
def jGet (v : JValue) (k : String) : Option JValue :=
  match v with
  | .obj fields => (fields.reverse.find? (fun p => p.1 == k)).map (fun p => p.2)
  | _ => none

/-! ## Decision Engine reply parsing (`_ask_llm_action`, lines 259-273) -/

/-- Leftmost match of the pattern `\x7b[^\x7d]+\x7d` (an opening brace, one
or more non-closing-brace characters, a closing brace), as found by
`re.search`. -/
def firstBraceAux : List Char → Option (List Char)
  | [] => none
  | c :: rest =>
    if c = lbraceC then
      let body := List.takeWhile (fun x => x != rbraceC) rest
      if body.length ≠ 0 ∧ body.length < rest.length then
        some (lbraceC :: (body ++ [rbraceC]))
      else firstBraceAux rest
    else firstBraceAux rest

def first_brace_match (s : String) : Option String :=
  (firstBraceAux s.data).map (fun l => ⟨l⟩)

/-- The default action synthesized when parsing fails. -/
def defaultWaitAction (why : String) : JValue :=
  .obj [("action", .str "wait"), ("reason", .str why)]

/-- The parsing tail of `_ask_llm_action`: strict `json.loads` of the raw
reply; on failure, `json.loads` of the first `\x7b...\x7d` substring; on
failure, the default `wait` action with reason `"Parse error"`.  Total —
the Python function's `except` arms never let a parse error escape. -/
def _ask_llm_action_parse (response : String) : JValue :=
  match json_loads response with
  | some v => v
  | none =>
    match first_brace_match response with
    | some sub =>
      match json_loads sub with
      | some v => v
      | none => defaultWaitAction "Parse error"
    | none => defaultWaitAction "Parse error"

/-! ## LLM provider chain (`_call_llm`, lines 67-117) -/

/-- Outcome of one provider attempt, as observed by `_call_llm`:
`success content` is an HTTP 200 response whose body yielded `content`
(for Groq, `json()["choices"][0]["message"]["content"]`; for Ollama,
`json().get("response", "")`); `httpErrorStatus` is a completed response
with a non-200 status; `exn` is any raised exception (network error,
timeout, or a body that fails to decode). -/
inductive ProviderResult where
  | success (content : String)
  | httpErrorStatus (status : Nat)
  | exn
deriving Repr, DecidableEq

/-- Python truthiness of the `GROQ_API_KEY` string config value. -/
def keyTruthy (key : String) : Bool := key != ""

/-- Model of `_call_llm`: try Groq when the key is set; on any failure fall back to
Ollama; if that also fails, return the fixed default reply. -/
def _call_llm (GROQ_API_KEY : String) (groq ollama : ProviderResult) : String :=
  let viaOllama :=
    match ollama with
    | .success content => strTrim content
    | _ => "\x7b\"action\": \"wait\", \"reason\": \"LLM unavailable\"\x7d"
  if keyTruthy GROQ_API_KEY then
    match groq with
    | .success content => strTrim content
    | _ => viaOllama
  else viaOllama

/-! ## Page Element Extractor (`_get_page_elements`, lines 166-228) -/

/-- One candidate DOM element as seen by the in-page JavaScript, in
document/selector scan order: its bounding-box measurements (only the
`=== 0` test matters, so they are `Nat`), computed-style fields, and the
attribute strings (`getAttribute(...) || ''` makes an absent attribute the
empty string). -/
structure RawEl where
  width : Nat
  height : Nat
  display : String
  visibility : String
  opacity : String
  tag : String
  id : String
  textContent : String
  placeholder : String
  ariaLabel : String
  name : String
  type : String
  role : String
  value : String
deriving Repr, DecidableEq

/-- The record pushed into `results` for each accepted candidate. -/
structure PageElement where
  index : Nat
  tag : String
  type : String
  role : String
  id : String
  name : String
  placeholder : String
  ariaLabel : String
  text : String
  value : String
  desc : String
  label : String
deriving Repr, DecidableEq

/-- JavaScript `a || b || ...` over strings: first non-empty, else `''`. -/
def firstNonempty (xs : List String) : String :=
  match xs.find? (fun s => s != "") with
  | some s => s
  | none => ""

/-- Build the pushed record (automation.py lines 185-208). -/
def mkElement (idx : Nat) (r : RawEl) : PageElement :=
  let text := strTake (strTrim r.textContent) 50
  let desc0 := strToUpper r.tag
  let desc := if r.type != "" then desc0 ++ "[" ++ r.type ++ "]" else desc0
  let label := strTake (firstNonempty [r.ariaLabel, r.placeholder, text, r.name, r.id]) 60
  { index := idx, tag := r.tag, type := r.type, role := r.role, id := r.id,
    name := r.name, placeholder := r.placeholder, ariaLabel := r.ariaLabel,
    text := strTake text 50, value := strTake r.value 30, desc := desc, label := label }

/-- The dedup key `tag|id|text|placeholder` (line 195). -/
def dedupKey (r : RawEl) : String :=
  r.tag ++ "|" ++ r.id ++ "|" ++ strTake (strTrim r.textContent) 50 ++ "|" ++ r.placeholder

/-- The selector scan: reject zero-area or hidden candidates, skip
duplicates, push up to the global cap of 35 (the `break` right after the
push that reaches 35 ends the scan). -/
def extractAux : List RawEl → List String → List PageElement → List PageElement
  | [], _, acc => acc
  | r :: rest, seen, acc =>
    if r.width = 0 ∨ r.height = 0 then extractAux rest seen acc
    else if r.display = "none" ∨ r.visibility = "hidden" ∨ r.opacity = "0" then
      extractAux rest seen acc
    else if dedupKey r ∈ seen then extractAux rest seen acc
    else
      let acc' := acc ++ [mkElement acc.length r]
      if 35 ≤ acc'.length then acc' else extractAux rest (dedupKey r :: seen) acc'

/-- Model of `_get_page_elements`, element-list half: the candidates are the
concatenation of all selector query results in scan order. -/
def _get_page_elements (dom : List RawEl) : List PageElement :=
  extractAux dom [] []

/-- The flattened text half of `_get_page_elements` (lines 216-225). -/
def elementsToText (els : List PageElement) : String :=
  String.intercalate "\n" (els.map (fun el =>
    let line := "[" ++ toString el.index ++ "] " ++ el.desc
    let line := if el.label != "" then line ++ " \"" ++ el.label ++ "\"" else line
    if el.value != "" then line ++ " (value: \"" ++ el.value ++ "\")" else line))

/-! ## Actions and the Action Executor (`_execute_action`, lines 280-329) -/

/-- The parsed LLM action dictionary, restricted to the keys the loop and
executor read.  `none` models an absent key; a present key is assumed
well-typed (`action`/`text` a string, `element` an integer), which is the
regime every claim quantifies over. -/
structure ActionDict where
  action : Option String
  element : Option Int
  text : Option String
  reason : Option String
deriving Repr, DecidableEq

/-- The element interaction the executor attempts after resolving a valid
index: a click, a clear-and-type, or (for an unrecognized action type with
a valid index) only locator resolution. -/
inductive Interaction where
  | clickEl (idx : Nat)
  | typeEl (idx : Nat) (text : String)
  | locateEl (idx : Nat)
deriving Repr, DecidableEq

/-- Model of `_execute_action`: first component is the Python return value (`False`
stops the loop), second is the element interaction attempted, if any.
Failures while acting on a resolved element are caught in the source and
do not change the return value, so they do not appear here. -/
def _execute_action (action : ActionDict) (elements : List PageElement) :
    Bool × Option Interaction :=
  let action_type := action.action.getD "wait"
  if action_type = "done" then (false, none)
  else if action_type = "wait" then (true, none)
  else if action_type = "scroll" then (true, none)
  else if action_type = "press_enter" then (true, none)
  else
    let idx : Int := action.element.getD (-1)
    if idx < 0 ∨ (elements.length : Int) ≤ idx then (true, none)
    else if action_type = "click" then (true, some (.clickEl idx.toNat))
    else if action_type = "type" then (true, some (.typeEl idx.toNat (action.text.getD "")))
    else (true, some (.locateEl idx.toNat))

/-! ## Control Loop (`_automate_with_llm`, lines 388-424)

The browser and the LLM are the loop's environment: iteration `s` of the
Python `for step in range(MAX_LLM_STEPS)` observes the extraction result,
the page URL/title, and the Decision Engine's action for that iteration.
A run is reproduced by recording those observations per step index, so a
`StepInput`-valued function of the step index covers every run. -/

/-- What the environment supplies to one loop iteration. -/
structure StepInput where
  elements : List PageElement
  elementsText : String
  url : String
  title : String
  action : ActionDict
deriving Repr

/-- Why the loop ended. -/
inductive TermReason where
  | paymentDetected
  | doneSignal
  | waitAbort
  | budgetExhausted
deriving Repr, DecidableEq

/-- What one started iteration did. -/
inductive StepOutcome where
  | skipped
  | paymentStop
  | doneStop (a : ActionDict)
  | waitAbortStop (a : ActionDict)
  | continued (a : ActionDict) (waitsAfter : Nat)
deriving Repr, DecidableEq

/-- Observable record of one started iteration: the Python `step` loop
variable, the consecutive-wait counter on entry, and the outcome. -/
structure StepRecord where
  step : Nat
  waitsBefore : Nat
  outcome : StepOutcome
deriving Repr, DecidableEq

structure LoopOutcome where
  reason : TermReason
  finalStep : Nat
  history : List String
  trace : List StepRecord
deriving Repr

/-- The history line appended per executed step (line 410). -/
def histLine (step : Nat) (a : ActionDict) : String :=
  "Step " ++ toString (step + 1) ++ ": " ++ a.action.getD "?" ++ " - " ++ a.reason.getD "?"

/-- The loop body, by remaining-iteration fuel.  Mirrors lines 391-422:
empty extraction skips the iteration; a payment page breaks; a `done`
executor signal breaks; a third consecutive `wait` breaks; otherwise the
wait counter is bumped or reset and the loop continues. -/
def runAux (env : Nat → StepInput) : Nat → Nat → Nat → List String → LoopOutcome
  | 0, step, _, hist => ⟨.budgetExhausted, step, hist, []⟩
  | fuel + 1, step, waits, hist =>
    let inp := env step
    if inp.elementsText = "" then
      let out := runAux env fuel (step + 1) waits hist
      { out with trace := ⟨step, waits, .skipped⟩ :: out.trace }
    else if _is_payment_page inp.url inp.title = true then
      ⟨.paymentDetected, step, hist, [⟨step, waits, .paymentStop⟩]⟩
    else
      let hist' := hist ++ [histLine step inp.action]
      if (_execute_action inp.action inp.elements).1 = false then
        ⟨.doneSignal, step, hist', [⟨step, waits, .doneStop inp.action⟩]⟩
      else if inp.action.action = some "wait" then
        if 3 ≤ waits + 1 then
          ⟨.waitAbort, step, hist', [⟨step, waits, .waitAbortStop inp.action⟩]⟩
        else
          let out := runAux env fuel (step + 1) (waits + 1) hist'
          { out with trace := ⟨step, waits, .continued inp.action (waits + 1)⟩ :: out.trace }
      else
        let out := runAux env fuel (step + 1) 0 hist'
        { out with trace := ⟨step, waits, .continued inp.action 0⟩ :: out.trace }

def MAX_LLM_STEPS : Nat := 20

/-- The whole LLM-guided loop of `_automate_with_llm`, from the initial
state `step = 0`, `waits = 0`, `history = []`. -/
def _automate_with_llm (env : Nat → StepInput) : LoopOutcome :=
  runAux env MAX_LLM_STEPS 0 0 []

/-- The outcome one started iteration must have, given the environment at
its step and the wait counter on entry (restates the branch structure of
the loop body for proof purposes). -/
def stepOutcomeOf (env : Nat → StepInput) (s w : Nat) : StepOutcome :=
  let inp := env s
  if inp.elementsText = "" then .skipped
  else if _is_payment_page inp.url inp.title = true then .paymentStop
  else if (_execute_action inp.action inp.elements).1 = false then .doneStop inp.action
  else if inp.action.action = some "wait" then
    if 3 ≤ w + 1 then .waitAbortStop inp.action else .continued inp.action (w + 1)
  else .continued inp.action 0

/-- Soundness predicate tying a trace (with the final reason and step) to
the loop dynamics, used to transport facts about `runAux` to list-level
reasoning. -/
def runOk (env : Nat → StepInput) : Nat → Nat → List StepRecord → TermReason → Nat → Prop
  | s, _, [], why, fs => why = .budgetExhausted ∧ fs = s
  | s, w, e :: rest, why, fs =>
    e.step = s ∧ e.waitsBefore = w ∧ e.outcome = stepOutcomeOf env s w ∧
    (e.outcome = .skipped → runOk env (s + 1) w rest why fs) ∧
    (e.outcome = .paymentStop → rest = [] ∧ why = .paymentDetected ∧ fs = s) ∧
    (∀ a, e.outcome = .doneStop a → rest = [] ∧ why = .doneSignal ∧ fs = s) ∧
    (∀ a, e.outcome = .waitAbortStop a → rest = [] ∧ why = .waitAbort ∧ fs = s) ∧
    (∀ a w', e.outcome = .continued a w' → runOk env (s + 1) w' rest why fs)

theorem runAux_sound (env : Nat → StepInput) :
    ∀ fuel s w hist, runOk env s w (runAux env fuel s w hist).trace
      (runAux env fuel s w hist).reason (runAux env fuel s w hist).finalStep := by
  intro fuel
  induction fuel with
  | zero => exact fun s w hist => ⟨rfl, rfl⟩
  | succ fuel ih =>
    intro s w hist
    by_cases h1 : (env s).elementsText = ""
    · simpa [runAux, runOk, stepOutcomeOf, h1] using ih (s + 1) w hist
    · by_cases h2 : _is_payment_page (env s).url (env s).title = true
      · simp [runAux, runOk, stepOutcomeOf, h1, h2]
      · by_cases h3 : (_execute_action (env s).action (env s).elements).1 = false
        · simp [runAux, runOk, stepOutcomeOf, h1, h2, h3]
        · by_cases h4 : (env s).action.action = some "wait"
          · by_cases h5 : 3 ≤ w + 1
            · simp [runAux, runOk, stepOutcomeOf, h1, h2, h3, h4, h5]
            · simpa [runAux, runOk, stepOutcomeOf, h1, h2, h3, h4, h5] using
                ih (s + 1) (w + 1) (hist ++ [histLine s (env s).action])
          · simpa [runAux, runOk, stepOutcomeOf, h1, h2, h3, h4] using
              ih (s + 1) 0 (hist ++ [histLine s (env s).action])

theorem runAux_trace_length_le (env : Nat → StepInput) :
    ∀ fuel s w hist, (runAux env fuel s w hist).trace.length ≤ fuel := by
  intro fuel
  induction fuel with
  | zero => intro s w hist; simp [runAux]
  | succ fuel ih =>
    intro s w hist
    by_cases h1 : (env s).elementsText = ""
    · simpa [runAux, h1] using ih (s + 1) w hist
    · by_cases h2 : _is_payment_page (env s).url (env s).title = true
      · simp [runAux, h1, h2]
      · by_cases h3 : (_execute_action (env s).action (env s).elements).1 = false
        · simp [runAux, h1, h2, h3]
        · by_cases h4 : (env s).action.action = some "wait"
          · by_cases h5 : 3 ≤ w + 1
            · simp [runAux, h1, h2, h3, h4, h5]
            · simpa [runAux, h1, h2, h3, h4, h5] using
                ih (s + 1) (w + 1) (hist ++ [histLine s (env s).action])
          · simpa [runAux, h1, h2, h3, h4] using
              ih (s + 1) 0 (hist ++ [histLine s (env s).action])

theorem runOk_head (env : Nat → StepInput) (tr : List StepRecord) (s w : Nat)
    (why : TermReason) (fs : Nat) (e : StepRecord) (h : runOk env s w tr why fs)
    (he : tr[0]? = some e) : e.step = s ∧ e.waitsBefore = w := by
  cases tr with
  | nil => simp at he
  | cons hd rest =>
    simp at he
    subst he
    exact ⟨h.1, h.2.1⟩

theorem runOk_get (env : Nat → StepInput) :
    ∀ (tr : List StepRecord) (s w : Nat) (why : TermReason) (fs j : Nat) (e : StepRecord),
      runOk env s w tr why fs → tr[j]? = some e →
      e.step = s + j ∧ e.outcome = stepOutcomeOf env e.step e.waitsBefore := by
  intro tr
  induction tr with
  | nil => intro s w why fs j e h he; simp at he
  | cons hd rest ih =>
    intro s w why fs j e h he
    obtain ⟨hstep, hw, hout, hskip, hpay, hdone, habort, hcont⟩ := h
    cases j with
    | zero =>
      simp at he; subst he
      refine ⟨by omega, ?_⟩
      rw [hstep, hw]; exact hout
    | succ j =>
      simp at he
      cases hq : hd.outcome with
      | skipped =>
        obtain ⟨h1, h2⟩ := ih (s + 1) w why fs j e (hskip hq) he
        exact ⟨by omega, h2⟩
      | paymentStop =>
        rcases hpay hq with ⟨hrest, -, -⟩; subst hrest; simp at he
      | doneStop a =>
        rcases hdone a hq with ⟨hrest, -, -⟩; subst hrest; simp at he
      | waitAbortStop a =>
        rcases habort a hq with ⟨hrest, -, -⟩; subst hrest; simp at he
      | continued a w' =>
        obtain ⟨h1, h2⟩ := ih (s + 1) w' why fs j e (hcont a w' hq) he
        exact ⟨by omega, h2⟩

theorem runOk_adjacent (env : Nat → StepInput) :
    ∀ (tr : List StepRecord) (s w : Nat) (why : TermReason) (fs j : Nat) (e e' : StepRecord),
      runOk env s w tr why fs → tr[j]? = some e → tr[j + 1]? = some e' →
      e'.step = e.step + 1 ∧
      (e.outcome = .skipped → e'.waitsBefore = e.waitsBefore) ∧
      (∀ a w', e.outcome = .continued a w' → e'.waitsBefore = w') := by
  intro tr
  induction tr with
  | nil => intro s w why fs j e e' h he he'; simp at he
  | cons hd rest ih =>
    intro s w why fs j e e' h he he'
    obtain ⟨hstep, hw, hout, hskip, hpay, hdone, habort, hcont⟩ := h
    cases j with
    | zero =>
      simp at he; subst he
      simp at he'
      cases hq : hd.outcome with
      | skipped =>
        have hh := runOk_head env rest (s + 1) w why fs e' (hskip hq) he'
        refine ⟨by rw [hh.1, hstep], fun _ => by rw [hh.2, hw], ?_⟩
        intro a w' hc
        exact absurd hc (by simp)
      | paymentStop => rcases hpay hq with ⟨hrest, -, -⟩; subst hrest; simp at he'
      | doneStop a => rcases hdone a hq with ⟨hrest, -, -⟩; subst hrest; simp at he'
      | waitAbortStop a => rcases habort a hq with ⟨hrest, -, -⟩; subst hrest; simp at he'
      | continued a w' =>
        have hh := runOk_head env rest (s + 1) w' why fs e' (hcont a w' hq) he'
        refine ⟨by rw [hh.1, hstep], ?_, ?_⟩
        · intro hc; exact absurd hc (by simp)
        · intro a' w'' hc
          injection hc with h1 h2
          rw [hh.2, h2]
    | succ j =>
      simp at he he'
      cases hq : hd.outcome with
      | skipped => exact ih (s + 1) w why fs j e e' (hskip hq) he he'
      | paymentStop => rcases hpay hq with ⟨hrest, -, -⟩; subst hrest; simp at he
      | doneStop a => rcases hdone a hq with ⟨hrest, -, -⟩; subst hrest; simp at he
      | waitAbortStop a => rcases habort a hq with ⟨hrest, -, -⟩; subst hrest; simp at he
      | continued a w' => exact ih (s + 1) w' why fs j e e' (hcont a w' hq) he he'

theorem runOk_last (env : Nat → StepInput) :
    ∀ (tr : List StepRecord) (s w : Nat) (why : TermReason) (fs j : Nat) (e : StepRecord),
      runOk env s w tr why fs → tr[j]? = some e →
      (e.outcome = .paymentStop → why = .paymentDetected ∧ fs = e.step ∧ tr.length = j + 1) ∧
      (∀ a, e.outcome = .doneStop a → why = .doneSignal ∧ fs = e.step ∧ tr.length = j + 1) ∧
      (∀ a, e.outcome = .waitAbortStop a → why = .waitAbort ∧ fs = e.step ∧ tr.length = j + 1) := by
  intro tr
  induction tr with
  | nil => intro s w why fs j e h he; simp at he
  | cons hd rest ih =>
    intro s w why fs j e h he
    obtain ⟨hstep, hw, hout, hskip, hpay, hdone, habort, hcont⟩ := h
    cases j with
    | zero =>
      simp at he; subst he
      refine ⟨?_, ?_, ?_⟩
      · intro hq; rcases hpay hq with ⟨hrest, h1, h2⟩
        exact ⟨h1, by rw [h2, hstep], by simp [hrest]⟩
      · intro a hq; rcases hdone a hq with ⟨hrest, h1, h2⟩
        exact ⟨h1, by rw [h2, hstep], by simp [hrest]⟩
      · intro a hq; rcases habort a hq with ⟨hrest, h1, h2⟩
        exact ⟨h1, by rw [h2, hstep], by simp [hrest]⟩
    | succ j =>
      simp at he
      cases hq : hd.outcome with
      | skipped =>
        have hrec := ih (s + 1) w why fs j e (hskip hq) he
        refine ⟨?_, ?_, ?_⟩
        · intro hx; rcases hrec.1 hx with ⟨a1, a2, a3⟩; exact ⟨a1, a2, by simp [a3]⟩
        · intro a hx; rcases hrec.2.1 a hx with ⟨a1, a2, a3⟩; exact ⟨a1, a2, by simp [a3]⟩
        · intro a hx; rcases hrec.2.2 a hx with ⟨a1, a2, a3⟩; exact ⟨a1, a2, by simp [a3]⟩
      | paymentStop => rcases hpay hq with ⟨hrest, -, -⟩; subst hrest; simp at he
      | doneStop a => rcases hdone a hq with ⟨hrest, -, -⟩; subst hrest; simp at he
      | waitAbortStop a => rcases habort a hq with ⟨hrest, -, -⟩; subst hrest; simp at he
      | continued a w' =>
        have hrec := ih (s + 1) w' why fs j e (hcont a w' hq) he
        refine ⟨?_, ?_, ?_⟩
        · intro hx; rcases hrec.1 hx with ⟨a1, a2, a3⟩; exact ⟨a1, a2, by simp [a3]⟩
        · intro a hx; rcases hrec.2.1 a hx with ⟨a1, a2, a3⟩; exact ⟨a1, a2, by simp [a3]⟩
        · intro a hx; rcases hrec.2.2 a hx with ⟨a1, a2, a3⟩; exact ⟨a1, a2, by simp [a3]⟩

/-- The executor's return value is `False` (stop) exactly for a `done`
action type; every other dictionary — including one with no `action` key,
which `.get("action", "wait")` defaults to `wait` — continues. -/
theorem execute_stop_iff (a : ActionDict) (els : List PageElement) :
    (_execute_action a els).1 = false ↔ a.action = some "done" := by
  cases ha : a.action with
  | none => simp [_execute_action, ha]
  | some s =>
    simp only [_execute_action, ha, Option.getD_some]
    split_ifs with h1 h2 h3 h4 <;> simp_all

theorem runAux_budget (env : Nat → StepInput) :
    ∀ fuel s w hist, (runAux env fuel s w hist).reason = .budgetExhausted →
      (runAux env fuel s w hist).trace.length = fuel ∧
      (runAux env fuel s w hist).finalStep = s + fuel := by
  intro fuel
  induction fuel with
  | zero => intro s w hist _; exact ⟨rfl, rfl⟩
  | succ fuel ih =>
    intro s w hist hb
    by_cases h1 : (env s).elementsText = ""
    · simp only [runAux, h1, if_true, eq_self_iff_true, ite_true] at hb ⊢
      simp at hb ⊢
      rcases ih (s + 1) w hist hb with ⟨hl, hf⟩
      exact ⟨by simp [hl], by rw [hf]; omega⟩
    · by_cases h2 : _is_payment_page (env s).url (env s).title = true
      · simp [runAux, h1, h2] at hb
      · by_cases h3 : (_execute_action (env s).action (env s).elements).1 = false
        · simp [runAux, h1, h2, h3] at hb
        · by_cases h4 : (env s).action.action = some "wait"
          · by_cases h5 : 3 ≤ w + 1
            · simp [runAux, h1, h2, h3, h4, h5] at hb
            · simp only [runAux, h1, h2, h3, h4, h5] at hb ⊢
              simp at hb ⊢
              rcases ih (s + 1) (w + 1) (hist ++ [histLine s (env s).action]) hb with ⟨hl, hf⟩
              exact ⟨by simp [hl], by rw [hf]; omega⟩
          · simp only [runAux, h1, h2, h3, h4] at hb ⊢
            simp at hb ⊢
            rcases ih (s + 1) 0 (hist ++ [histLine s (env s).action]) hb with ⟨hl, hf⟩
            exact ⟨by simp [hl], by rw [hf]; omega⟩

theorem runAux_nodone_reason (env : Nat → StepInput)
    (hnd : ∀ s, (env s).action.action ≠ some "done")
    (hnp : ∀ s, _is_payment_page (env s).url (env s).title = false) :
    ∀ fuel s w hist, (runAux env fuel s w hist).reason = .waitAbort ∨
      (runAux env fuel s w hist).reason = .budgetExhausted := by
  intro fuel
  induction fuel with
  | zero => intro s w hist; exact Or.inr rfl
  | succ fuel ih =>
    intro s w hist
    by_cases h1 : (env s).elementsText = ""
    · simpa [runAux, h1] using ih (s + 1) w hist
    · have h2 : ¬(_is_payment_page (env s).url (env s).title = true) := by simp [hnp s]
      have h3 : ¬((_execute_action (env s).action (env s).elements).1 = false) := by
        rw [execute_stop_iff]; exact hnd s
      by_cases h4 : (env s).action.action = some "wait"
      · by_cases h5 : 3 ≤ w + 1
        · simp [runAux, h1, h2, h3, h4, h5]
        · simpa [runAux, h1, h2, h3, h4, h5] using
            ih (s + 1) (w + 1) (hist ++ [histLine s (env s).action])
      · simpa [runAux, h1, h2, h3, h4] using
          ih (s + 1) 0 (hist ++ [histLine s (env s).action])

theorem runAux_nowait_budget (env : Nat → StepInput)
    (hnd : ∀ s, (env s).action.action ≠ some "done")
    (hnp : ∀ s, _is_payment_page (env s).url (env s).title = false)
    (hnw : ∀ s, (env s).action.action ≠ some "wait") :
    ∀ fuel s w hist, (runAux env fuel s w hist).reason = .budgetExhausted := by
  intro fuel
  induction fuel with
  | zero => intro s w hist; rfl
  | succ fuel ih =>
    intro s w hist
    by_cases h1 : (env s).elementsText = ""
    · simpa [runAux, h1] using ih (s + 1) w hist
    · have h2 : ¬(_is_payment_page (env s).url (env s).title = true) := by simp [hnp s]
      have h3 : ¬((_execute_action (env s).action (env s).elements).1 = false) := by
        rw [execute_stop_iff]; exact hnd s
      have h4 : ¬((env s).action.action = some "wait") := hnw s
      simpa [runAux, h1, h2, h3, h4] using
        ih (s + 1) 0 (hist ++ [histLine s (env s).action])

theorem extractAux_length_le :
    ∀ (rest : List RawEl) (seen : List String) (acc : List PageElement),
      acc.length < 35 → (extractAux rest seen acc).length ≤ 35 := by
  intro rest
  induction rest with
  | nil => intro seen acc h; simpa [extractAux] using Nat.le_of_lt h
  | cons r rs ih =>
    intro seen acc h
    by_cases h1 : r.width = 0 ∨ r.height = 0
    · simpa [extractAux, h1] using ih seen acc h
    · by_cases h2 : r.display = "none" ∨ r.visibility = "hidden" ∨ r.opacity = "0"
      · simpa [extractAux, h1, h2] using ih seen acc h
      · by_cases h3 : dedupKey r ∈ seen
        · simpa [extractAux, h1, h2, h3] using ih seen acc h
        · by_cases h4 : 35 ≤ acc.length + 1
          · simp [extractAux, h1, h2, h3, h4]
            omega
          · simp only [extractAux, h1, h2, h3, if_false, ite_false]
            have h4' : ¬(35 ≤ (acc ++ [mkElement acc.length r]).length) := by
              simpa using h4
            simp only [h4', ite_false]
            exact ih _ _ (by simp; omega)

theorem extractAux_mem :
    ∀ (rest : List RawEl) (seen : List String) (acc : List PageElement) (pe : PageElement),
      pe ∈ extractAux rest seen acc →
      pe ∈ acc ∨ ∃ r, r ∈ rest ∧ r.width ≠ 0 ∧ r.height ≠ 0 ∧ ∃ i, pe = mkElement i r := by
  intro rest
  induction rest with
  | nil => intro seen acc pe h; exact Or.inl (by simpa [extractAux] using h)
  | cons r rs ih =>
    intro seen acc pe h
    by_cases h1 : r.width = 0 ∨ r.height = 0
    · rcases ih seen acc pe (by simpa [extractAux, h1] using h) with hl | ⟨r', hr', hw, hh, i, hpe⟩
      · exact Or.inl hl
      · exact Or.inr ⟨r', List.mem_cons_of_mem _ hr', hw, hh, i, hpe⟩
    · have hw : r.width ≠ 0 := fun hx => h1 (Or.inl hx)
      have hh : r.height ≠ 0 := fun hx => h1 (Or.inr hx)
      by_cases h2 : r.display = "none" ∨ r.visibility = "hidden" ∨ r.opacity = "0"
      · rcases ih seen acc pe (by simpa [extractAux, h1, h2] using h) with
          hl | ⟨r', hr', hw', hh', i, hpe⟩
        · exact Or.inl hl
        · exact Or.inr ⟨r', List.mem_cons_of_mem _ hr', hw', hh', i, hpe⟩
      · by_cases h3 : dedupKey r ∈ seen
        · rcases ih seen acc pe (by simpa [extractAux, h1, h2, h3] using h) with
            hl | ⟨r', hr', hw', hh', i, hpe⟩
          · exact Or.inl hl
          · exact Or.inr ⟨r', List.mem_cons_of_mem _ hr', hw', hh', i, hpe⟩
        · by_cases h4 : 35 ≤ acc.length + 1
          · have h' : pe ∈ acc ++ [mkElement acc.length r] := by
              simpa [extractAux, h1, h2, h3, h4] using h
            rcases List.mem_append.mp h' with ha | hb
            · exact Or.inl ha
            · exact Or.inr ⟨r, List.mem_cons_self _ _, hw, hh, acc.length,
                (List.mem_singleton.mp hb)⟩
          · have h' : pe ∈ extractAux rs (dedupKey r :: seen) (acc ++ [mkElement acc.length r]) := by
              simpa [extractAux, h1, h2, h3, h4] using h
            rcases ih _ _ pe h' with hl | ⟨r', hr', hw', hh', i, hpe⟩
            · rcases List.mem_append.mp hl with ha | hb
              · exact Or.inl ha
              · exact Or.inr ⟨r, List.mem_cons_self _ _, hw, hh, acc.length,
                  (List.mem_singleton.mp hb)⟩
            · exact Or.inr ⟨r', List.mem_cons_of_mem _ hr', hw', hh', i, hpe⟩

theorem stepOutcomeOf_continued (env : Nat → StepInput) (st w : Nat) (a : ActionDict) (w' : Nat)
    (h : stepOutcomeOf env st w = .continued a w') :
    a = (env st).action ∧
    ((env st).action.action = some "wait" → w' = w + 1) ∧
    ((env st).action.action ≠ some "wait" → w' = 0) := by
  by_cases c1 : (env st).elementsText = ""
  · simp [stepOutcomeOf, c1] at h
  · by_cases c2 : _is_payment_page (env st).url (env st).title = true
    · simp [stepOutcomeOf, c1, c2] at h
    · by_cases c3 : (_execute_action (env st).action (env st).elements).1 = false
      · simp [stepOutcomeOf, c1, c2, c3] at h
      · by_cases c4 : (env st).action.action = some "wait"
        · by_cases c5 : 3 ≤ w + 1
          · simp [stepOutcomeOf, c1, c2, c3, c4, c5] at h
          · simp [stepOutcomeOf, c1, c2, c3, c4, c5] at h
            obtain ⟨h1, h2⟩ := h
            exact ⟨h1.symm, fun _ => h2.symm, fun hn => absurd c4 hn⟩
        · simp [stepOutcomeOf, c1, c2, c3, c4] at h
          obtain ⟨h1, h2⟩ := h
          exact ⟨h1.symm, fun hw => absurd hw c4, fun _ => h2.symm⟩

theorem stepOutcomeOf_wait_abort (env : Nat → StepInput) (st w : Nat)
    (htext : (env st).elementsText ≠ "")
    (hpay : _is_payment_page (env st).url (env st).title = false)
    (hwait : (env st).action.action = some "wait") (hw : 2 ≤ w) :
    stepOutcomeOf env st w = .waitAbortStop (env st).action := by
  have hexec : ¬((_execute_action (env st).action (env st).elements).1 = false) := by
    rw [execute_stop_iff, hwait]; simp
  simp [stepOutcomeOf, htext, hpay, hexec, hwait, show 3 ≤ w + 1 by omega]

/-! ## Concrete environments used for instantiations -/

def sampleRaw : RawEl :=
  ⟨10, 20, "block", "visible", "1", "button", "go", " Search ", "", "", "", "submit", "", ""⟩

def sampleElement : PageElement := mkElement 0 sampleRaw

def waitAct : ActionDict := ⟨some "wait", none, none, some "thinking"⟩

def clickAct : ActionDict := ⟨some "click", some 0, none, some "go"⟩

def scrollAct : ActionDict := ⟨some "scroll", none, none, some "explore"⟩

def waitInput : StepInput :=
  ⟨[sampleElement], "[0] BUTTON[submit] \"Search\"", "https://www.redbus.in/", "RedBus", waitAct⟩

def clickInput : StepInput :=
  ⟨[sampleElement], "[0] BUTTON[submit] \"Search\"", "https://www.redbus.in/", "RedBus", clickAct⟩

def scrollInput : StepInput :=
  ⟨[sampleElement], "[0] BUTTON[submit] \"Search\"", "https://www.zomato.com/", "Zomato", scrollAct⟩

def paymentInput : StepInput :=
  ⟨[sampleElement], "[0] BUTTON[submit] \"Search\"",
   "https://www.booking.com/checkout", "Checkout — Booking.com", waitAct⟩

def envPayment : Nat → StepInput := fun _ => paymentInput

def envWaits : Nat → StepInput := fun _ => waitInput

def envMix : Nat → StepInput := fun n => if n = 0 then clickInput else waitInput

def envWWC : Nat → StepInput := fun n => if n < 2 then waitInput else clickInput

def envScroll : Nat → StepInput := fun _ => scrollInput

/-! ## Claim theorems -/

/-- C1: whenever the running loop reads a URL/title at an iteration with a
non-empty extraction result and the payment heuristic matches, the loop
terminates at that very iteration with reason payment-detected, regardless
of how many steps remain in the budget. -/
theorem payment_detection_terminates (env : Nat → StepInput) (s : Nat) (e : StepRecord)
    (hreach : (_automate_with_llm env).trace[s]? = some e)
    (htext : (env s).elementsText ≠ "")
    (hpay : _is_payment_page (env s).url (env s).title = true) :
    (_automate_with_llm env).reason = .paymentDetected ∧
    (_automate_with_llm env).finalStep = s ∧
    (_automate_with_llm env).trace.length = s + 1 := by
  have hok := runAux_sound env MAX_LLM_STEPS 0 0 []
  obtain ⟨hstep, hout⟩ := runOk_get env (_automate_with_llm env).trace 0 0
    (_automate_with_llm env).reason (_automate_with_llm env).finalStep s e hok hreach
  have hstep' : e.step = s := by omega
  have houtcome : e.outcome = .paymentStop := by
    rw [hout, hstep']
    simp [stepOutcomeOf, htext, hpay]
  have hlast := runOk_last env (_automate_with_llm env).trace 0 0
    (_automate_with_llm env).reason (_automate_with_llm env).finalStep s e hok hreach
  rcases hlast.1 houtcome with ⟨hwhy, hfs, hlen⟩
  exact ⟨hwhy, by rw [hfs, hstep'], hlen⟩

theorem payment_detection_terminates_witness :
    (_automate_with_llm envPayment).reason = .paymentDetected ∧
    (_automate_with_llm envPayment).finalStep = 0 ∧
    (_automate_with_llm envPayment).trace.length = 0 + 1 :=
  payment_detection_terminates envPayment 0 ⟨0, 0, .paymentStop⟩ (by rfl) (by decide) (by decide)

/-- C2: when every provider in the chain fails (non-200 status, network
error or timeout, from Groq — attempted only under a truthy key — and from
Ollama), `_call_llm` returns exactly the fixed default reply, which the
Decision Engine parses to action `wait` with reason `LLM unavailable`.
The embedded function is total: no exception escapes. -/
theorem llm_unavailable_default (key : String) (groq ollama : ProviderResult)
    (hg : ∀ c, groq ≠ .success c) (ho : ∀ c, ollama ≠ .success c) :
    _call_llm key groq ollama =
      "\x7b\"action\": \"wait\", \"reason\": \"LLM unavailable\"\x7d" ∧
    _ask_llm_action_parse (_call_llm key groq ollama) =
      .obj [("action", .str "wait"), ("reason", .str "LLM unavailable")] := by
  have h1 : _call_llm key groq ollama =
      "\x7b\"action\": \"wait\", \"reason\": \"LLM unavailable\"\x7d" := by
    cases groq with
    | success c => exact absurd rfl (hg c)
    | httpErrorStatus st =>
      cases ollama with
      | success c => exact absurd rfl (ho c)
      | httpErrorStatus st2 => simp [_call_llm]
      | exn => simp [_call_llm]
    | exn =>
      cases ollama with
      | success c => exact absurd rfl (ho c)
      | httpErrorStatus st2 => simp [_call_llm]
      | exn => simp [_call_llm]
  refine ⟨h1, ?_⟩
  rw [h1]
  rfl

theorem llm_unavailable_default_witness :
    _call_llm "" (.httpErrorStatus 500) .exn =
      "\x7b\"action\": \"wait\", \"reason\": \"LLM unavailable\"\x7d" ∧
    _ask_llm_action_parse (_call_llm "" (.httpErrorStatus 500) .exn) =
      .obj [("action", .str "wait"), ("reason", .str "LLM unavailable")] :=
  llm_unavailable_default "" (.httpErrorStatus 500) .exn
    (fun _ h => nomatch h) (fun _ h => nomatch h)

/-- C3: the Decision Engine's parser returns the strict-JSON parse of the
whole reply when it exists; otherwise the parse of the first
`\x7b...\x7d` substring when that exists and parses; otherwise exactly the
default `wait`/`Parse error` action; and on the spec's example reply
(`Sure! ... ok` around a click object) it extracts action `click` with
element `2`.  The embedded parser is total. -/
theorem llm_reply_parsing (response : String) :
    (∀ v, json_loads response = some v → _ask_llm_action_parse response = v) ∧
    (json_loads response = none →
      ∀ sub v, first_brace_match response = some sub → json_loads sub = some v →
        _ask_llm_action_parse response = v) ∧
    (json_loads response = none →
      (∀ sub, first_brace_match response = some sub → json_loads sub = none) →
      _ask_llm_action_parse response = defaultWaitAction "Parse error") ∧
    (jGet (_ask_llm_action_parse
        "Sure! \x7b\"action\":\"click\",\"element\":2,\"reason\":\"go\"\x7d ok") "action" =
      some (.str "click") ∧
     jGet (_ask_llm_action_parse
        "Sure! \x7b\"action\":\"click\",\"element\":2,\"reason\":\"go\"\x7d ok") "element" =
      some (.num 2 [] none)) := by
  refine ⟨?_, ?_, ?_, by rfl, by rfl⟩
  · intro v hv; simp [_ask_llm_action_parse, hv]
  · intro h0 sub v hs hv; simp [_ask_llm_action_parse, h0, hs, hv]
  · intro h0 hall
    cases hfb : first_brace_match response with
    | none => simp [_ask_llm_action_parse, h0, hfb]
    | some sub => simp [_ask_llm_action_parse, h0, hfb, hall sub hfb]

theorem llm_reply_parsing_witness :
    _ask_llm_action_parse "\x7b\"action\": \"wait\"\x7d" =
      .obj [("action", .str "wait")] :=
  (llm_reply_parsing "\x7b\"action\": \"wait\"\x7d").1
    (.obj [("action", .str "wait")]) (by rfl)

/-- C4: two consecutively executed `wait` actions followed by a third
executed `wait` (no non-wait action between them) make the loop terminate
at that third iteration with the repeated-wait abort, before exhausting
the step budget; and an executed non-wait action always resets the
consecutive-wait counter to zero. -/
theorem consecutive_wait_abort (env : Nat → StepInput) :
    (∀ (s : Nat) (e0 e1 e2 : StepRecord) (a0 a1 : ActionDict) (w0 w1 : Nat),
      (_automate_with_llm env).trace[s]? = some e0 →
      e0.outcome = .continued a0 w0 → a0.action = some "wait" →
      (_automate_with_llm env).trace[s + 1]? = some e1 →
      e1.outcome = .continued a1 w1 → a1.action = some "wait" →
      (_automate_with_llm env).trace[s + 2]? = some e2 →
      (env (s + 2)).elementsText ≠ "" →
      _is_payment_page (env (s + 2)).url (env (s + 2)).title = false →
      (env (s + 2)).action.action = some "wait" →
      (_automate_with_llm env).reason = .waitAbort ∧
      (_automate_with_llm env).trace.length = s + 3) ∧
    (∀ (j : Nat) (e : StepRecord) (a : ActionDict) (w' : Nat),
      (_automate_with_llm env).trace[j]? = some e →
      e.outcome = .continued a w' → a.action ≠ some "wait" → w' = 0) := by
  have hok := runAux_sound env MAX_LLM_STEPS 0 0 []
  constructor
  · intro s e0 e1 e2 a0 a1 w0 w1 h0 ho0 ha0 h1 ho1 ha1 h2 htext hpay hwait
    obtain ⟨hs0, hq0⟩ := runOk_get env (_automate_with_llm env).trace 0 0
      (_automate_with_llm env).reason (_automate_with_llm env).finalStep s e0 hok h0
    obtain ⟨ha0', hw0inc, -⟩ :=
      stepOutcomeOf_continued env e0.step e0.waitsBefore a0 w0 (hq0.symm.trans ho0)
    have hw0 : w0 = e0.waitsBefore + 1 := hw0inc (by rw [← ha0']; exact ha0)
    obtain ⟨-, -, hcont01⟩ := runOk_adjacent env (_automate_with_llm env).trace 0 0
      (_automate_with_llm env).reason (_automate_with_llm env).finalStep s e0 e1 hok h0 h1
    have he1w : e1.waitsBefore = w0 := hcont01 a0 w0 ho0
    obtain ⟨hs1, hq1⟩ := runOk_get env (_automate_with_llm env).trace 0 0
      (_automate_with_llm env).reason (_automate_with_llm env).finalStep (s + 1) e1 hok h1
    obtain ⟨ha1', hw1inc, -⟩ :=
      stepOutcomeOf_continued env e1.step e1.waitsBefore a1 w1 (hq1.symm.trans ho1)
    have hw1 : w1 = e1.waitsBefore + 1 := hw1inc (by rw [← ha1']; exact ha1)
    obtain ⟨-, -, hcont12⟩ := runOk_adjacent env (_automate_with_llm env).trace 0 0
      (_automate_with_llm env).reason (_automate_with_llm env).finalStep (s + 1) e1 e2 hok h1 h2
    have he2w : e2.waitsBefore = w1 := hcont12 a1 w1 ho1
    obtain ⟨hs2, hq2⟩ := runOk_get env (_automate_with_llm env).trace 0 0
      (_automate_with_llm env).reason (_automate_with_llm env).finalStep (s + 2) e2 hok h2
    have hs2' : e2.step = s + 2 := by omega
    have habort : e2.outcome = .waitAbortStop (env (s + 2)).action := by
      rw [hq2, hs2']
      exact stepOutcomeOf_wait_abort env (s + 2) e2.waitsBefore htext hpay hwait (by omega)
    have hlast := runOk_last env (_automate_with_llm env).trace 0 0
      (_automate_with_llm env).reason (_automate_with_llm env).finalStep (s + 2) e2 hok h2
    rcases hlast.2.2 _ habort with ⟨hwhy, -, hlen⟩
    exact ⟨hwhy, by omega⟩
  · intro j e a w' hj hoe hne
    obtain ⟨hsj, hqj⟩ := runOk_get env (_automate_with_llm env).trace 0 0
      (_automate_with_llm env).reason (_automate_with_llm env).finalStep j e hok hj
    obtain ⟨ha', -, hzero⟩ :=
      stepOutcomeOf_continued env e.step e.waitsBefore a w' (hqj.symm.trans hoe)
    exact hzero (by rw [← ha']; exact hne)

theorem consecutive_wait_abort_witness :
    ((_automate_with_llm envWaits).reason = .waitAbort ∧
     (_automate_with_llm envWaits).trace.length = 0 + 3) ∧
    (0 : Nat) = 0 :=
  ⟨(consecutive_wait_abort envWaits).1 0
      ⟨0, 0, .continued waitAct 1⟩ ⟨1, 1, .continued waitAct 2⟩ ⟨2, 2, .waitAbortStop waitAct⟩
      waitAct waitAct 1 2 (by rfl) rfl rfl (by rfl) rfl rfl (by rfl)
      (by decide) (by decide) rfl,
   (consecutive_wait_abort envMix).2 0 ⟨0, 0, .continued clickAct 0⟩ clickAct 0
      (by rfl) rfl (by decide)⟩

/-- C5 counterexample: in the concrete run `envWWC` (wait, wait, then
clicks), the consecutive-wait counter drops from 2 to 0 between two
consecutive iterations, so it is not monotonically non-decreasing within
a run. -/
theorem session_counters_monotone_cex :
    ∃ j e e', (_automate_with_llm envWWC).trace[j]? = some e ∧
      (_automate_with_llm envWWC).trace[j + 1]? = some e' ∧
      e'.waitsBefore < e.waitsBefore :=
  ⟨2, ⟨2, 2, .continued clickAct 0⟩, ⟨3, 0, .continued clickAct 0⟩,
    by rfl, by rfl, by decide⟩

/-- C5 amended: within a run the step counter starts at 0 and increases by
one from each started iteration to the next (hence is monotonically
non-decreasing); the consecutive-wait counter starts at 0, is unchanged by
a skipped iteration, and after an executed action becomes the action's
`waitsAfter` value — the old value plus one for a `wait` action, and zero
(a reset) for any non-wait action. -/
theorem session_counters_evolution (env : Nat → StepInput) :
    (∀ (e : StepRecord), (_automate_with_llm env).trace[0]? = some e →
      e.step = 0 ∧ e.waitsBefore = 0) ∧
    (∀ (j : Nat) (e e' : StepRecord),
      (_automate_with_llm env).trace[j]? = some e →
      (_automate_with_llm env).trace[j + 1]? = some e' →
      e'.step = e.step + 1 ∧
      (e.outcome = .skipped → e'.waitsBefore = e.waitsBefore) ∧
      (∀ (a : ActionDict) (w' : Nat), e.outcome = .continued a w' →
        e'.waitsBefore = w' ∧
        (a.action = some "wait" → w' = e.waitsBefore + 1) ∧
        (a.action ≠ some "wait" → w' = 0))) := by
  have hok := runAux_sound env MAX_LLM_STEPS 0 0 []
  constructor
  · intro e he
    exact runOk_head env (_automate_with_llm env).trace 0 0
      (_automate_with_llm env).reason (_automate_with_llm env).finalStep e hok he
  · intro j e e' hj hj'
    obtain ⟨hstep, hskip, hcont⟩ := runOk_adjacent env (_automate_with_llm env).trace 0 0
      (_automate_with_llm env).reason (_automate_with_llm env).finalStep j e e' hok hj hj'
    refine ⟨hstep, hskip, ?_⟩
    intro a w' hc
    obtain ⟨hsj, hqj⟩ := runOk_get env (_automate_with_llm env).trace 0 0
      (_automate_with_llm env).reason (_automate_with_llm env).finalStep j e hok hj
    obtain ⟨ha', hinc, hzero⟩ :=
      stepOutcomeOf_continued env e.step e.waitsBefore a w' (hqj.symm.trans hc)
    exact ⟨hcont a w' hc,
      fun hw => hinc (by rw [← ha']; exact hw),
      fun hnw => hzero (by rw [← ha']; exact hnw)⟩

theorem session_counters_evolution_witness :
    ((⟨0, 0, StepOutcome.continued waitAct 1⟩ : StepRecord).step = 0 ∧
     (⟨0, 0, StepOutcome.continued waitAct 1⟩ : StepRecord).waitsBefore = 0) ∧
    (⟨1, 1, StepOutcome.continued waitAct 2⟩ : StepRecord).step =
      (⟨0, 0, StepOutcome.continued waitAct 1⟩ : StepRecord).step + 1 :=
  ⟨(session_counters_evolution envWaits).1 ⟨0, 0, .continued waitAct 1⟩ (by rfl),
   ((session_counters_evolution envWaits).2 0
      ⟨0, 0, .continued waitAct 1⟩ ⟨1, 1, .continued waitAct 2⟩ (by rfl) (by rfl)).1⟩

/-- C6 counterexample: with a Decision Engine that always returns `wait`
(a non-`done` action) and no payment page ever, the run aborts after 3
iterations with the repeated-wait abort — not after 20 by budget
exhaustion. -/
theorem budget_exhaustion_cex :
    (∀ s, (envWaits s).action.action ≠ some "done") ∧
    (∀ s, _is_payment_page (envWaits s).url (envWaits s).title = false) ∧
    (_automate_with_llm envWaits).reason = .waitAbort ∧
    (_automate_with_llm envWaits).reason ≠ .budgetExhausted ∧
    (_automate_with_llm envWaits).trace.length = 3 :=
  ⟨fun _ => (by decide : waitAct.action ≠ some "done"),
   fun _ => (by decide : _is_payment_page waitInput.url waitInput.title = false),
   by rfl, by decide, by rfl⟩

/-- C6 amended: if the Decision Engine never returns `done` and no payment
page is detected, the loop never performs more than `MAX_LLM_STEPS` (20)
iterations and terminates either by the repeated-wait abort or by budget
exhaustion after exactly 20 iterations; if moreover it never returns
`wait`, termination is exactly budget exhaustion after 20 iterations. -/
theorem step_budget_termination (env : Nat → StepInput)
    (hnd : ∀ s, (env s).action.action ≠ some "done")
    (hnp : ∀ s, _is_payment_page (env s).url (env s).title = false) :
    (_automate_with_llm env).trace.length ≤ MAX_LLM_STEPS ∧
    ((_automate_with_llm env).reason = .waitAbort ∨
      ((_automate_with_llm env).reason = .budgetExhausted ∧
       (_automate_with_llm env).trace.length = MAX_LLM_STEPS ∧
       (_automate_with_llm env).finalStep = MAX_LLM_STEPS)) ∧
    ((∀ s, (env s).action.action ≠ some "wait") →
      (_automate_with_llm env).reason = .budgetExhausted ∧
      (_automate_with_llm env).trace.length = MAX_LLM_STEPS) := by
  refine ⟨runAux_trace_length_le env MAX_LLM_STEPS 0 0 [], ?_, ?_⟩
  · rcases runAux_nodone_reason env hnd hnp MAX_LLM_STEPS 0 0 [] with h | h
    · exact Or.inl h
    · rcases runAux_budget env MAX_LLM_STEPS 0 0 [] h with ⟨hl, hf⟩
      exact Or.inr ⟨h, hl, by simpa using hf⟩
  · intro hnw
    have h := runAux_nowait_budget env hnd hnp hnw MAX_LLM_STEPS 0 0 []
    rcases runAux_budget env MAX_LLM_STEPS 0 0 [] h with ⟨hl, -⟩
    exact ⟨h, hl⟩

theorem step_budget_termination_witness :
    (_automate_with_llm envScroll).trace.length ≤ MAX_LLM_STEPS ∧
    ((_automate_with_llm envScroll).reason = .waitAbort ∨
      ((_automate_with_llm envScroll).reason = .budgetExhausted ∧
       (_automate_with_llm envScroll).trace.length = MAX_LLM_STEPS ∧
       (_automate_with_llm envScroll).finalStep = MAX_LLM_STEPS)) ∧
    ((∀ s, (envScroll s).action.action ≠ some "wait") →
      (_automate_with_llm envScroll).reason = .budgetExhausted ∧
      (_automate_with_llm envScroll).trace.length = MAX_LLM_STEPS) :=
  step_budget_termination envScroll
    (fun _ => (by decide : scrollAct.action ≠ some "done"))
    (fun _ => (by decide : _is_payment_page scrollInput.url scrollInput.title = false))

/-- C7: the Page Element Extractor returns at most 35 elements, and every
returned element is rendered from a scanned DOM candidate whose bounding
box has non-zero width and non-zero height (zero-area candidates are
rejected before anything else). -/
theorem extractor_cap_and_nonzero (dom : List RawEl) (pe : PageElement)
    (hpe : pe ∈ _get_page_elements dom) :
    (_get_page_elements dom).length ≤ 35 ∧
    ∃ r, r ∈ dom ∧ r.width ≠ 0 ∧ r.height ≠ 0 ∧ ∃ i, pe = mkElement i r := by
  constructor
  · exact extractAux_length_le dom [] [] (by simp)
  · rcases extractAux_mem dom [] [] pe hpe with hl | hr
    · simp at hl
    · exact hr

theorem extractor_cap_and_nonzero_witness :
    (_get_page_elements [sampleRaw]).length ≤ 35 ∧
    ∃ r, r ∈ [sampleRaw] ∧ r.width ≠ 0 ∧ r.height ≠ 0 ∧
      ∃ i, mkElement 0 sampleRaw = mkElement i r :=
  extractor_cap_and_nonzero [sampleRaw] (mkElement 0 sampleRaw) (by decide)

/-- C8: a `click` or `type` action whose element index is out of range
(negative, or at least the number of extracted elements) makes the
executor return the continue signal with no element interaction at all,
and (being total) without raising. -/
theorem invalid_index_noop (a : ActionDict) (els : List PageElement) (i : Int)
    (hact : a.action = some "click" ∨ a.action = some "type")
    (hel : a.element = some i)
    (hrange : i < 0 ∨ (els.length : Int) ≤ i) :
    _execute_action a els = (true, none) := by
  rcases hact with hc | ht
  · simp [_execute_action, hc, hel, hrange]
  · simp [_execute_action, ht, hel, hrange]

theorem invalid_index_noop_witness :
    _execute_action ⟨some "click", some 5, none, none⟩ [] = (true, none) :=
  invalid_index_noop ⟨some "click", some 5, none, none⟩ [] 5
    (Or.inl rfl) rfl (Or.inr (by decide))

/-- C9: the Site Router is a total function: each of the six categories in
the fixed site map gets its fixed (url, name) pair, and every other
category gets the generic Google-search fallback URL built from the
destination, which contains the destination as a substring. -/
theorem site_router_total (intent destination : String)
    (h : intent ∉ ["taxi_booking", "bus_booking", "hotel_booking",
      "flight_booking", "restaurant_booking", "tour_booking"]) :
    (∀ d : String,
      siteFor "taxi_booking" d = ⟨"https://m.uber.com/go/pickup", "Uber"⟩ ∧
      siteFor "bus_booking" d = ⟨"https://www.redbus.in/", "RedBus"⟩ ∧
      siteFor "hotel_booking" d = ⟨"https://www.booking.com/", "Booking.com"⟩ ∧
      siteFor "flight_booking" d = ⟨"https://www.google.com/travel/flights", "Google Flights"⟩ ∧
      siteFor "restaurant_booking" d = ⟨"https://www.zomato.com/", "Zomato"⟩ ∧
      siteFor "tour_booking" d = ⟨"https://www.google.com/maps", "Google Maps"⟩) ∧
    siteFor intent destination =
      ⟨"https://www.google.com/search?q=" ++ destination ++ "+booking", "Google"⟩ ∧
    strContains (siteFor intent destination).url destination = true := by
  simp only [List.mem_cons, List.not_mem_nil, or_false, not_or] at h
  obtain ⟨h1, h2, h3, h4, h5, h6⟩ := h
  have hl : SITE_MAP.lookup intent = none := by
    simp [SITE_MAP, List.lookup, beq_eq_false_iff_ne.mpr h1, beq_eq_false_iff_ne.mpr h2,
      beq_eq_false_iff_ne.mpr h3, beq_eq_false_iff_ne.mpr h4, beq_eq_false_iff_ne.mpr h5,
      beq_eq_false_iff_ne.mpr h6]
  have hfall : siteFor intent destination =
      ⟨"https://www.google.com/search?q=" ++ destination ++ "+booking", "Google"⟩ := by
    simp [siteFor, hl]
  refine ⟨fun d => ⟨rfl, rfl, rfl, rfl, rfl, rfl⟩, hfall, ?_⟩
  rw [hfall]
  show strContains ("https://www.google.com/search?q=" ++ destination ++ "+booking")
    destination = true
  unfold strContains
  rw [String.data_append, String.data_append, List.append_assoc]
  exact listInfixB_append _ _ _

theorem site_router_total_witness :
    siteFor "train_booking" "Paris" =
      ⟨"https://www.google.com/search?q=" ++ "Paris" ++ "+booking", "Google"⟩ ∧
    strContains (siteFor "train_booking" "Paris").url "Paris" = true :=
  ⟨(site_router_total "train_booking" "Paris" (by decide)).2.1,
   (site_router_total "train_booking" "Paris" (by decide)).2.2⟩

/-- C10: the executor alone ends the loop only through an explicit `done`
action: its stop signal (return `False`) holds exactly when the `action`
field is `"done"`; any other value — an unrecognized action string, or a
missing `action` key (which defaults to `"wait"`) — yields continue. -/
theorem executor_stop_only_on_done (a : ActionDict) (els : List PageElement) :
    (_execute_action a els).1 = false ↔ a.action = some "done" :=
  execute_stop_iff a els
